import Mathlib

/-!
Verification of the AmbiType corpus-streaming and rolling-statistics core
(`src/lib/corpusLoader.js` and the statistics module).

Texts are modelled as `List Char`.  JavaScript numbers used as indices and
counters are modelled as `Nat` (they are provably non-negative in the code),
timestamps as `Int`, and the floating-point WPM arithmetic as exact rationals
with JavaScript's `Math.round` modelled as `fun q => ⌊q + 1/2⌋`.
`Math.random()`-driven choices are modelled by an oracle `rand : Nat → Nat`
supplying the k-th random draw, reduced into range exactly as
`randomInt` does in the source.

The source's `while` loops are modelled by structurally recursive functions
carrying an explicit fuel argument; each wrapper supplies fuel that provably
dominates the loop's iteration count, so fuel exhaustion never changes the
result relative to the JavaScript loop (where a claim depends on this it is
proved, e.g. `nextChunk` always reports `complete = true`).

Asynchronous caching (`loadBookText`) is modelled as an explicit state
transformer over the memoization map; the browser's event loop serializes the
synchronous check-then-insert step, so two overlapping calls are modelled as
two sequential applications of the transformer, and a cached promise is
modelled by its settled outcome (`Except`: `error` for a rejection).
-/

namespace AmbiType

/-- The character class of JavaScript's `\s` (also the set trimmed by
`String.prototype.trim`): ASCII whitespace, NBSP, Ogham space mark,
the U+2000–U+200A spaces, line/paragraph separators, narrow NBSP,
medium mathematical space, ideographic space and the BOM. -/
def isJsSpace (c : Char) : Bool :=
  let n := c.toNat
  n = 0x20 || n = 0x09 || n = 0x0A || n = 0x0B || n = 0x0C || n = 0x0D ||
  n = 0xA0 || n = 0x1680 || (0x2000 ≤ n && n ≤ 0x200A) ||
  n = 0x2028 || n = 0x2029 || n = 0x202F || n = 0x205F || n = 0x3000 || n = 0xFEFF

/-- Character class of `ZERO_WIDTH_REGEX` (U+200B..U+200D, U+2060, U+FEFF). -/
def isZeroWidth (c : Char) : Bool :=
  let n := c.toNat
  (0x200B ≤ n && n ≤ 0x200D) || n = 0x2060 || n = 0xFEFF

/-- Character class of `UNICODE_SPACES_REGEX`
(U+00A0, U+1680, U+2000..U+200A, U+202F, U+205F, U+3000). -/
def isUnicodeSpaceVariant (c : Char) : Bool :=
  let n := c.toNat
  n = 0xA0 || n = 0x1680 || (0x2000 ≤ n && n ≤ 0x200A) ||
  n = 0x202F || n = 0x205F || n = 0x3000

/-- Character class of `SMART_DOUBLE_QUOTES_REGEX` (U+201C, U+201D). -/
def isSmartDouble (c : Char) : Bool :=
  c.toNat = 0x201C || c.toNat = 0x201D

/-- Character class of `SMART_SINGLE_QUOTES_REGEX` (U+2018, U+2019). -/
def isSmartSingle (c : Char) : Bool :=
  c.toNat = 0x2018 || c.toNat = 0x2019

/-- Character class of `SMART_DASHES_REGEX` (U+2013, U+2014, U+2212). -/
def isSmartDash (c : Char) : Bool :=
  c.toNat = 0x2013 || c.toNat = 0x2014 || c.toNat = 0x2212

/-- `const MIN_TAIL_GUARD_CHARS = 12000`. -/
def MIN_TAIL_GUARD_CHARS : Nat := 12000

/-- `const DEFAULT_APPEND_CHUNK_CHARS = 4000`. -/
def DEFAULT_APPEND_CHUNK_CHARS : Nat := 4000

/-- `const DEFAULT_INITIAL_BUFFER_CHARS = 24000`. -/
def DEFAULT_INITIAL_BUFFER_CHARS : Nat := 24000

/-- `randomInt(maxExclusive)`: `Math.floor(Math.random() * maxExclusive)`, or
`0` when `maxExclusive <= 0`.  The oracle value `r` stands for the random
draw; `r % maxExclusive` ranges over exactly the values the source can
return, and every such value is reached by some `r`. -/
def randomInt (r : Nat) (maxExclusive : Nat) : Nat :=
  if maxExclusive = 0 then 0 else r % maxExclusive

/-- First loop of `findSafeBoundary`
(`while (offset < text.length && !/\s/.test(text[offset])) offset += 1`),
with explicit fuel. -/
def skipNonSpaceAux (text : List Char) : Nat → Nat → Nat
  | 0, offset => offset
  | fuel + 1, offset =>
    if h : offset < text.length then
      if isJsSpace (text.get ⟨offset, h⟩) then offset
      else skipNonSpaceAux text fuel (offset + 1)
    else offset

/-- The loop runs at most `text.length - offset` times. -/
def skipNonSpace (text : List Char) (offset : Nat) : Nat :=
  skipNonSpaceAux text (text.length - offset) offset

/-- Second loop of `findSafeBoundary`
(`while (offset < text.length && /\s/.test(text[offset])) offset += 1`),
with explicit fuel. -/
def skipSpaceAux (text : List Char) : Nat → Nat → Nat
  | 0, offset => offset
  | fuel + 1, offset =>
    if h : offset < text.length then
      if isJsSpace (text.get ⟨offset, h⟩) then skipSpaceAux text fuel (offset + 1)
      else offset
    else offset

/-- The loop runs at most `text.length - offset` times. -/
def skipSpace (text : List Char) (offset : Nat) : Nat :=
  skipSpaceAux text (text.length - offset) offset

/-- `findSafeBoundary(text, startOffset)` from `corpusLoader.js`: clamp the
start offset into `[0, length - 1]`, walk forward past the current
non-whitespace run, then past the following whitespace run, and fall back to
`0` if that walks off the end of the text. -/
def findSafeBoundary (text : List Char) (startOffset : Nat) : Nat :=
  if text.length = 0 then 0
  else
    let offset := min startOffset (text.length - 1)
    let snapped := skipSpace text (skipNonSpace text offset)
    if snapped < text.length then snapped else 0

/-- `pickRandomStartOffset(text)`: rough random offset in
`[0, max(0, length - MIN_TAIL_GUARD_CHARS)]`, snapped to a safe boundary. -/
def pickRandomStartOffset (r : Nat) (text : List Char) : Nat :=
  if text.length = 0 then 0
  else
    let maxOffset := text.length - MIN_TAIL_GUARD_CHARS
    findSafeBoundary text (randomInt r (maxOffset + 1))

/-- `/\s$/.test(chunk)`: the last character of the chunk is whitespace. -/
def endsWithJsSpace (chunk : List Char) : Bool :=
  match chunk.getLast? with
  | some c => isJsSpace c
  | none => false

/-- Result of one `nextChunk` call: the returned chunk, the stream's new
cursor, how many random draws have been consumed, whether the defensive
`remaining <= 0` break was taken, and whether the loop reached its exit
condition within the supplied fuel. -/
structure ChunkResult where
  chunk : List Char
  cursor : Nat
  k : Nat
  broke : Bool
  complete : Bool
deriving Repr, DecidableEq

/-- The `while (chunk.length < targetChars)` loop of
`CorpusSessionStream.nextChunk`.  One fuel unit per iteration: wrap the
cursor (with a separating space if the chunk so far does not end in
whitespace), take the defensive break if no text remains, otherwise copy
`min(needed, remaining)` characters (`text.slice(cursor, cursor + takeLength)`)
and advance the cursor. -/
def nextChunkLoop (text : List Char) (rand : Nat → Nat) (targetChars : Nat) :
    Nat → List Char → Nat → Nat → ChunkResult
  | 0, chunk, cursor, k => ⟨chunk, cursor, k, false, false⟩
  | fuel + 1, chunk, cursor, k =>
    if targetChars ≤ chunk.length then ⟨chunk, cursor, k, false, true⟩
    else
      let chunk1 := if text.length ≤ cursor then
          (if !chunk.isEmpty && !endsWithJsSpace chunk then chunk ++ [' '] else chunk)
        else chunk
      let cursor1 := if text.length ≤ cursor then pickRandomStartOffset (rand k) text else cursor
      let k1 := if text.length ≤ cursor then k + 1 else k
      if text.length - cursor1 = 0 then ⟨chunk1, cursor1, k1, true, true⟩
      else
        nextChunkLoop text rand targetChars fuel
          (chunk1 ++ (text.drop cursor1).take
            (min (targetChars - chunk1.length) (text.length - cursor1)))
          (cursor1 + min (targetChars - chunk1.length) (text.length - cursor1)) k1

/-- `nextChunk(targetChars)` starting from a stream state `(cursor, k)`.
Each loop iteration grows the chunk by at least one character or returns, so
`targetChars + 1` fuel always reaches the loop's own exit. -/
def nextChunk (text : List Char) (rand : Nat → Nat) (targetChars cursor k : Nat) :
    ChunkResult :=
  nextChunkLoop text rand targetChars (targetChars + 1) [] cursor k

/-- `ensureLength(currentText, minLength)`: append
`nextChunk(max(DEFAULT_APPEND_CHUNK_CHARS, minLength - next.length))` until
the text is long enough.  On an empty book text the source loop would never
terminate; the fuel argument bounds the number of iterations modelled (one
iteration already suffices for any non-empty book text). -/
def ensureLength (text : List Char) (rand : Nat → Nat) :
    Nat → List Char → Nat → Nat → Nat → List Char × Nat × Nat
  | 0, current, _, cursor, k => (current, cursor, k)
  | fuel + 1, current, minLength, cursor, k =>
    if minLength ≤ current.length then (current, cursor, k)
    else
      let charsNeeded := max DEFAULT_APPEND_CHUNK_CHARS (minLength - current.length)
      let r := nextChunk text rand charsNeeded cursor k
      ensureLength text rand fuel (current ++ r.chunk) minLength r.cursor r.k

/-- `createInitialBuffer(minLength) = ensureLength('', minLength)`. -/
def createInitialBuffer (text : List Char) (rand : Nat → Nat)
    (fuel minLength cursor k : Nat) : List Char × Nat × Nat :=
  ensureLength text rand fuel [] minLength cursor k

/-- `.replace(/\r\n/g, '\n')`: the global replacement scans left to right and
does not rescan replaced output. -/
def replaceCRLF : List Char → List Char
  | [] => []
  | [c] => [c]
  | c1 :: c2 :: rest =>
    if c1 = '\r' ∧ c2 = '\n' then '\n' :: replaceCRLF rest
    else c1 :: replaceCRLF (c2 :: rest)

/-- `.replace(UNICODE_SPACES_REGEX, ' ')`, per character. -/
def mapUnicodeSpace (c : Char) : Char :=
  if isUnicodeSpaceVariant c then ' ' else c

/-- `.replace(SMART_DOUBLE_QUOTES_REGEX, '"')`, per character. -/
def mapSmartDouble (c : Char) : Char :=
  if isSmartDouble c then '"' else c

/-- `.replace(SMART_SINGLE_QUOTES_REGEX, "'")`, per character. -/
def mapSmartSingle (c : Char) : Char :=
  if isSmartSingle c then '\'' else c

/-- `.replace(SMART_DASHES_REGEX, '-')`, per character. -/
def mapSmartDash (c : Char) : Char :=
  if isSmartDash c then '-' else c

/-- `.replace(/\s*\n+\s*/g, ' ')`.  With greedy quantifiers and global
left-to-right matching this replaces exactly every maximal whitespace run
that contains at least one `'\n'` by a single space, and leaves every other
character (including whitespace runs without a newline) unchanged.  Each
step consumes at least one character, so `l.length` fuel suffices. -/
def collapseNewlineRunsAux : Nat → List Char → List Char
  | 0, l => l
  | _ + 1, [] => []
  | fuel + 1, c :: rest =>
    if isJsSpace c then
      (if '\n' ∈ c :: rest.takeWhile isJsSpace then [' ']
       else c :: rest.takeWhile isJsSpace) ++
        collapseNewlineRunsAux fuel (rest.dropWhile isJsSpace)
    else c :: collapseNewlineRunsAux fuel rest

/-- See `collapseNewlineRunsAux`. -/
def collapseNewlineRuns (l : List Char) : List Char :=
  collapseNewlineRunsAux l.length l

/-- `c` is a plain space or a tab (the class `[ \t]`). -/
def isSpaceOrTab (c : Char) : Bool :=
  c = ' ' || c = '\t'

/-- `.replace(/[ \t]+/g, ' ')`: every maximal run of spaces/tabs becomes one
space.  `inRun` records whether the scan is inside a run whose replacement
space has already been emitted. -/
def collapseSpaceTabsGo (inRun : Bool) : List Char → List Char
  | [] => []
  | c :: rest =>
    if isSpaceOrTab c then
      if inRun then collapseSpaceTabsGo true rest
      else ' ' :: collapseSpaceTabsGo true rest
    else c :: collapseSpaceTabsGo false rest

/-- See `collapseSpaceTabsGo`. -/
def collapseSpaceTabs (l : List Char) : List Char :=
  collapseSpaceTabsGo false l

/-- `.trim()`: strip JavaScript whitespace from both ends. -/
def trimJs (l : List Char) : List Char :=
  List.rdropWhile isJsSpace (List.dropWhile isJsSpace l)

/-- No two adjacent space/tab characters — together with tab-freeness this
characterizes the fixed points of `collapseSpaceTabs`. -/
def noTwoSpaceTabs : List Char → Prop
  | [] => True
  | [_] => True
  | a :: b :: rest =>
    ¬(isSpaceOrTab a = true ∧ isSpaceOrTab b = true) ∧ noTwoSpaceTabs (b :: rest)

/-- `normalizeBookText(rawText)` from the corpus loader: CRLF to LF, strip
zero-width characters, canonicalize Unicode spaces, smart quotes and dashes,
flatten newline runs, collapse space/tab runs, and trim. -/
def normalizeBookText (rawText : List Char) : List Char :=
  trimJs (collapseSpaceTabs (collapseNewlineRuns
    ((((((replaceCRLF rawText).filter (fun c => !isZeroWidth c)).map
      mapUnicodeSpace).map mapSmartDouble).map mapSmartSingle).map mapSmartDash)))

/-- The settlement of the book-text promise built in `loadBookText`:
normalize the fetched text and reject if fewer than 500 characters remain. -/
def processBook (raw : List Char) : Except String (List Char) :=
  let text := normalizeBookText raw
  if text.length < 500 then Except.error "Corpus book is too short" else Except.ok text

/-- The module-level `textCache` keyed by path, with an instrumentation
counter of how many fetches have been issued per path.  A cached promise is
represented by its settled outcome. -/
structure BookCacheState where
  cache : String → Option (Except String (List Char))
  fetchCount : String → Nat

/-- `loadBookText(entry)` for a path that passed validation: on a cache miss
issue the fetch, build the text promise and store it in the cache (the
source stores the promise itself, so a rejection stays in the cache exactly
like a success); on a hit return the cached promise unchanged.  `fetchRaw`
gives the body served for the n-th fetch of a path. -/
def loadBookText (fetchRaw : String → Nat → List Char) (path : String)
    (s : BookCacheState) : Except String (List Char) × BookCacheState :=
  match s.cache path with
  | some r => (r, s)
  | none =>
    let r := processBook (fetchRaw path (s.fetchCount path))
    (r, ⟨fun p => if p = path then some r else s.cache p,
         fun p => if p = path then s.fetchCount p + 1 else s.fetchCount p⟩)

/-- One entry of the typing-event log: timestamp, characters typed and
characters typed correctly. -/
structure TypingEvent where
  t : Int
  chars : Nat
  correctChars : Nat
deriving Repr, DecidableEq

/-- Return value of `calculateRollingWpmFromEvents`. -/
structure WpmResult where
  rollingWpm : Int
  rawWpm : Int
  hasEventsInWindow : Bool
deriving Repr, DecidableEq

/-- JavaScript's `Math.round` on exact rationals: `⌊q + 1/2⌋`. -/
def jsRound (q : ℚ) : Int :=
  ⌊q + 1 / 2⌋

/-- The backward scan of `calculateRollingWpmFromEvents`, applied to the
reversed event list: accumulate `chars`/`correctChars` until the first event
with `t < windowStart`, recording whether any event was accumulated. -/
def windowScan (windowStart : Int) : List TypingEvent → Nat × Nat × Bool
  | [] => (0, 0, false)
  | e :: revRest =>
    if e.t < windowStart then (0, 0, false)
    else
      let s := windowScan windowStart revRest
      (s.1 + e.chars, s.2.1 + e.correctChars, true)

/-- `calculateRollingWpmFromEvents(events, now, windowMs)` from the
statistics module. -/
def calculateRollingWpmFromEvents (events : List TypingEvent)
    (now windowMs : Int) : WpmResult :=
  if events.isEmpty then ⟨0, 0, false⟩
  else
    let windowStart := now - windowMs
    let s := windowScan windowStart events.reverse
    if s.2.2 = false then ⟨0, 0, false⟩
    else
      let windowMinutes : ℚ := (windowMs : ℚ) / 60000
      ⟨jsRound ((s.2.1 : ℚ) / 5 / windowMinutes),
       jsRound ((s.1 : ℚ) / 5 / windowMinutes), true⟩

/-- Return value of `getRollingWpmDisplay`. -/
structure WpmDisplay where
  displayWpm : Option Int
  rawWpm : Int
deriving Repr, DecidableEq

/-- `getRollingWpmDisplay({...})` from the statistics module.  JavaScript
truthiness of the `firstTypedAt`/`lastTypedAt` timestamps and of
`totalTypedChars` is modelled by comparison with `0`. -/
def getRollingWpmDisplay (events : List TypingEvent) (now firstTypedAt : Int)
    (totalTypedChars : Nat) (lastTypedAt : Int) (previousDisplay : Option Int)
    (windowMs warmupMs : Int) (warmupMinChars : Nat) (idleResetMs : Int) :
    WpmDisplay :=
  if firstTypedAt = 0 ∨ totalTypedChars = 0 then ⟨none, 0⟩
  else
    let warmupReached :=
      warmupMs ≤ now - firstTypedAt ∨ warmupMinChars ≤ totalTypedChars
    if ¬warmupReached then ⟨none, 0⟩
    else
      let rolling := calculateRollingWpmFromEvents events now windowMs
      if rolling.hasEventsInWindow then ⟨some rolling.rollingWpm, rolling.rawWpm⟩
      else if lastTypedAt ≠ 0 ∧ now - lastTypedAt < idleResetMs then
        ⟨previousDisplay, 0⟩
      else ⟨none, 0⟩

/-- Modelled from the spec sentence C7 quotes (not from the source, for
comparison with it): the events "with timestamp in `[now - windowMs, now]`". -/
def specWindowEvents (events : List TypingEvent) (now windowMs : Int) :
    List TypingEvent :=
  events.filter (fun e => now - windowMs ≤ e.t && e.t ≤ now)

theorem skipNonSpaceAux_ge (text : List Char) (fuel offset : Nat) :
    offset ≤ skipNonSpaceAux text fuel offset := by
  induction fuel generalizing offset with
  | zero => exact Nat.le_refl _
  | succ fuel ih =>
    simp only [skipNonSpaceAux]
    split
    · split
      · exact Nat.le_refl _
      · exact Nat.le_trans (Nat.le_succ _) (ih (offset + 1))
    · exact Nat.le_refl _

theorem skipNonSpaceAux_le (text : List Char) (fuel offset : Nat)
    (h : offset ≤ text.length) : skipNonSpaceAux text fuel offset ≤ text.length := by
  induction fuel generalizing offset with
  | zero => exact h
  | succ fuel ih =>
    simp only [skipNonSpaceAux]
    split
    · split
      · exact h
      · exact ih (offset + 1) (by omega)
    · exact h

/-- When the loop stops in bounds, it stops on a whitespace character
(given enough fuel to reach the loop's exit). -/
theorem skipNonSpaceAux_stop (text : List Char) (fuel offset : Nat) (c : Char)
    (hfuel : text.length ≤ fuel + offset)
    (h : text[skipNonSpaceAux text fuel offset]? = some c) : isJsSpace c = true := by
  induction fuel generalizing offset with
  | zero =>
    simp only [skipNonSpaceAux] at h
    rw [List.getElem?_eq_none (by omega)] at h
    exact absurd h (by simp)
  | succ fuel ih =>
    simp only [skipNonSpaceAux] at h
    split at h
    · split at h
      · rename_i hlt hsp
        rw [List.getElem?_eq_getElem hlt] at h
        simp only [Option.some.injEq] at h
        rw [← h]
        simpa using hsp
      · exact ih (offset + 1) (by omega) h
    · rename_i hge
      rw [List.getElem?_eq_none (by omega)] at h
      exact absurd h (by simp)

theorem skipSpaceAux_ge (text : List Char) (fuel offset : Nat) :
    offset ≤ skipSpaceAux text fuel offset := by
  induction fuel generalizing offset with
  | zero => exact Nat.le_refl _
  | succ fuel ih =>
    simp only [skipSpaceAux]
    split
    · split
      · exact Nat.le_trans (Nat.le_succ _) (ih (offset + 1))
      · exact Nat.le_refl _
    · exact Nat.le_refl _

theorem skipSpaceAux_le (text : List Char) (fuel offset : Nat)
    (h : offset ≤ text.length) : skipSpaceAux text fuel offset ≤ text.length := by
  induction fuel generalizing offset with
  | zero => exact h
  | succ fuel ih =>
    simp only [skipSpaceAux]
    split
    · split
      · exact ih (offset + 1) (by omega)
      · exact h
    · exact h

/-- When the loop stops in bounds, it stops on a non-whitespace character
(given enough fuel to reach the loop's exit). -/
theorem skipSpaceAux_stop (text : List Char) (fuel offset : Nat) (c : Char)
    (hfuel : text.length ≤ fuel + offset)
    (h : text[skipSpaceAux text fuel offset]? = some c) : isJsSpace c = false := by
  induction fuel generalizing offset with
  | zero =>
    simp only [skipSpaceAux] at h
    rw [List.getElem?_eq_none (by omega)] at h
    exact absurd h (by simp)
  | succ fuel ih =>
    simp only [skipSpaceAux] at h
    split at h
    · split at h
      · exact ih (offset + 1) (by omega) h
      · rename_i hlt hsp
        rw [List.getElem?_eq_getElem hlt] at h
        simp only [Option.some.injEq] at h
        rw [← h]
        simpa [Bool.not_eq_true] using hsp
    · rename_i hge
      rw [List.getElem?_eq_none (by omega)] at h
      exact absurd h (by simp)

/-- If the whitespace-skipping loop advanced at all, the character just before
its stopping point is whitespace. -/
theorem skipSpaceAux_prev (text : List Char) (fuel offset : Nat)
    (h : offset < skipSpaceAux text fuel offset) :
    ∃ c, text[skipSpaceAux text fuel offset - 1]? = some c ∧ isJsSpace c = true := by
  induction fuel generalizing offset with
  | zero => simp only [skipSpaceAux] at h; omega
  | succ fuel ih =>
    simp only [skipSpaceAux] at h ⊢
    split at h
    · rename_i hlt
      split at h
      · rename_i hsp
        simp only [hlt, dif_pos, hsp, if_pos]
        rcases Nat.lt_or_ge (offset + 1) (skipSpaceAux text fuel (offset + 1)) with hlt2 | hge2
        · exact ih (offset + 1) hlt2
        · have heq : skipSpaceAux text fuel (offset + 1) = offset + 1 :=
            Nat.le_antisymm hge2 (skipSpaceAux_ge text fuel (offset + 1))
          refine ⟨text.get ⟨offset, hlt⟩, ?_, hsp⟩
          rw [heq]
          simp [List.getElem?_eq_getElem hlt]
      · omega
    · omega

theorem skipNonSpace_ge (text : List Char) (offset : Nat) :
    offset ≤ skipNonSpace text offset := skipNonSpaceAux_ge text _ offset

theorem skipNonSpace_le (text : List Char) (offset : Nat)
    (h : offset ≤ text.length) : skipNonSpace text offset ≤ text.length :=
  skipNonSpaceAux_le text _ offset h

theorem skipNonSpace_stop (text : List Char) (offset : Nat) (c : Char)
    (h : text[skipNonSpace text offset]? = some c) : isJsSpace c = true :=
  skipNonSpaceAux_stop text _ offset c (by omega) h

theorem skipSpace_ge (text : List Char) (offset : Nat) :
    offset ≤ skipSpace text offset := skipSpaceAux_ge text _ offset

theorem skipSpace_le (text : List Char) (offset : Nat)
    (h : offset ≤ text.length) : skipSpace text offset ≤ text.length :=
  skipSpaceAux_le text _ offset h

theorem skipSpace_stop (text : List Char) (offset : Nat) (c : Char)
    (h : text[skipSpace text offset]? = some c) : isJsSpace c = false :=
  skipSpaceAux_stop text _ offset c (by omega) h

theorem skipSpace_prev (text : List Char) (offset : Nat)
    (h : offset < skipSpace text offset) :
    ∃ c, text[skipSpace text offset - 1]? = some c ∧ isJsSpace c = true :=
  skipSpaceAux_prev text _ offset h

/-- If `skipSpace` stops strictly inside the text having started at the stop
point of `skipNonSpace`, it must have advanced (the two loops' stopping
conditions are incompatible at an in-bounds index). -/
theorem skipSpace_advances (text : List Char) (offset : Nat)
    (h : skipSpace text (skipNonSpace text offset) < text.length) :
    skipNonSpace text offset < skipSpace text (skipNonSpace text offset) := by
  rcases Nat.lt_or_ge (skipNonSpace text offset)
      (skipSpace text (skipNonSpace text offset)) with hlt | hge
  · exact hlt
  · exfalso
    have heq : skipSpace text (skipNonSpace text offset) = skipNonSpace text offset :=
      Nat.le_antisymm hge (skipSpace_ge text _)
    rw [heq] at h
    have hsome : text[skipNonSpace text offset]? = some (text.get ⟨_, h⟩) := by
      simp [List.getElem?_eq_getElem h]
    have h1 := skipNonSpace_stop text offset _ hsome
    have h2 := skipSpace_stop text (skipNonSpace text offset) (text.get ⟨_, h⟩)
    rw [heq] at h2
    have h2' := h2 hsome
    rw [h1] at h2'
    exact absurd h2' (by simp)

theorem findSafeBoundary_le (text : List Char) (startOffset : Nat) :
    findSafeBoundary text startOffset ≤ text.length := by
  unfold findSafeBoundary
  split
  · omega
  · simp only
    split
    · omega
    · omega

theorem findSafeBoundary_lt (text : List Char) (startOffset : Nat)
    (h : text ≠ []) : findSafeBoundary text startOffset < text.length := by
  have hlen : 0 < text.length := List.length_pos.mpr h
  unfold findSafeBoundary
  split
  · omega
  · simp only
    split
    · assumption
    · exact hlen

theorem pickRandomStartOffset_le (r : Nat) (text : List Char) :
    pickRandomStartOffset r text ≤ text.length := by
  unfold pickRandomStartOffset
  split
  · omega
  · exact findSafeBoundary_le text _

theorem pickRandomStartOffset_lt (r : Nat) (text : List Char) (h : text ≠ []) :
    pickRandomStartOffset r text < text.length := by
  unfold pickRandomStartOffset
  split
  · rename_i h0
    exact absurd (List.length_eq_zero.mp h0) h
  · exact findSafeBoundary_lt text _ h

theorem nextChunkLoop_cursor_le (text : List Char) (rand : Nat → Nat)
    (targetChars fuel : Nat) :
    ∀ chunk cursor k, cursor ≤ text.length →
      (nextChunkLoop text rand targetChars fuel chunk cursor k).cursor ≤ text.length := by
  induction fuel with
  | zero => intro chunk cursor k h; exact h
  | succ fuel ih =>
    intro chunk cursor k h
    by_cases hg : targetChars ≤ chunk.length
    · simp only [nextChunkLoop, if_pos hg]
      exact h
    · by_cases hw : text.length ≤ cursor
      · have hc1 : pickRandomStartOffset (rand k) text ≤ text.length :=
          pickRandomStartOffset_le _ _
        simp only [nextChunkLoop, if_neg hg, if_pos hw]
        split
        · exact hc1
        · exact ih _ _ _ (by omega)
      · simp only [nextChunkLoop, if_neg hg, if_neg hw]
        split
        · exact h
        · exact ih _ _ _ (by omega)

theorem nextChunkLoop_broke (text : List Char) (rand : Nat → Nat)
    (targetChars : Nat) (hne : text ≠ []) (fuel : Nat) :
    ∀ chunk cursor k,
      (nextChunkLoop text rand targetChars fuel chunk cursor k).broke = false := by
  induction fuel with
  | zero => intro chunk cursor k; rfl
  | succ fuel ih =>
    intro chunk cursor k
    by_cases hg : targetChars ≤ chunk.length
    · simp only [nextChunkLoop, if_pos hg]
    · by_cases hw : text.length ≤ cursor
      · have hc1 := pickRandomStartOffset_lt (rand k) text hne
        simp only [nextChunkLoop, if_neg hg, if_pos hw]
        rw [if_neg (by omega)]
        exact ih _ _ _
      · simp only [nextChunkLoop, if_neg hg, if_neg hw]
        rw [if_neg (by omega)]
        exact ih _ _ _

theorem nextChunkLoop_complete (text : List Char) (rand : Nat → Nat)
    (targetChars fuel : Nat) :
    ∀ chunk cursor k, targetChars - chunk.length < fuel →
      (nextChunkLoop text rand targetChars fuel chunk cursor k).complete = true := by
  induction fuel with
  | zero => intro chunk cursor k h; omega
  | succ fuel ih =>
    intro chunk cursor k h
    by_cases hg : targetChars ≤ chunk.length
    · simp only [nextChunkLoop, if_pos hg]
    · by_cases hw : text.length ≤ cursor
      · simp only [nextChunkLoop, if_neg hg, if_pos hw]
        split
        · rfl
        · rename_i hrem
          apply ih
          by_cases hsep : (!chunk.isEmpty && !endsWithJsSpace chunk) = true
          · simp only [if_pos hsep, List.length_append, List.length_take,
              List.length_drop, List.length_cons]
            omega
          · simp only [if_neg hsep, List.length_append, List.length_take,
              List.length_drop]
            omega
      · simp only [nextChunkLoop, if_neg hg, if_neg hw]
        split
        · rfl
        · rename_i hrem
          apply ih
          simp only [List.length_append, List.length_take, List.length_drop]
          omega

theorem nextChunkLoop_length (text : List Char) (rand : Nat → Nat)
    (targetChars fuel : Nat) :
    ∀ chunk cursor k,
      (nextChunkLoop text rand targetChars fuel chunk cursor k).complete = true →
      (nextChunkLoop text rand targetChars fuel chunk cursor k).broke = false →
      targetChars ≤ (nextChunkLoop text rand targetChars fuel chunk cursor k).chunk.length := by
  induction fuel with
  | zero =>
    intro chunk cursor k hc hb
    simp only [nextChunkLoop] at hc
    exact absurd hc (by simp)
  | succ fuel ih =>
    intro chunk cursor k hc hb
    by_cases hg : targetChars ≤ chunk.length
    · simpa only [nextChunkLoop, if_pos hg] using hg
    · by_cases hw : text.length ≤ cursor
      · simp only [nextChunkLoop, if_neg hg, if_pos hw] at hc hb ⊢
        split at hb
        · simp at hb
        · rename_i hrem
          rw [if_neg hrem] at hc ⊢
          exact ih _ _ _ hc hb
      · simp only [nextChunkLoop, if_neg hg, if_neg hw] at hc hb ⊢
        split at hb
        · simp at hb
        · rename_i hrem
          rw [if_neg hrem] at hc ⊢
          exact ih _ _ _ hc hb

theorem ensureLength_cursor_le (text : List Char) (rand : Nat → Nat)
    (fuel : Nat) :
    ∀ current minLength cursor k, cursor ≤ text.length →
      (ensureLength text rand fuel current minLength cursor k).2.1 ≤ text.length := by
  induction fuel with
  | zero => intro current minLength cursor k h; exact h
  | succ fuel ih =>
    intro current minLength cursor k h
    by_cases hfull : minLength ≤ current.length
    · simp only [ensureLength, if_pos hfull]
      exact h
    · simp only [ensureLength, if_neg hfull]
      exact ih _ _ _ _ (nextChunkLoop_cursor_le text rand _ _ _ _ _ h)

theorem noTwoSpaceTabs_tail {a : Char} {l : List Char}
    (h : noTwoSpaceTabs (a :: l)) : noTwoSpaceTabs l := by
  cases l with
  | nil => trivial
  | cons b rest => exact h.2

theorem noTwoSpaceTabs_cons {x : Char} {l : List Char}
    (hhead : ∀ c, l.head? = some c → ¬(isSpaceOrTab x = true ∧ isSpaceOrTab c = true))
    (hl : noTwoSpaceTabs l) : noTwoSpaceTabs (x :: l) := by
  cases l with
  | nil => trivial
  | cons b rest => exact ⟨hhead b rfl, hl⟩

theorem noTwoSpaceTabs_append_left :
    ∀ (l₁ l₂ : List Char), noTwoSpaceTabs (l₁ ++ l₂) → noTwoSpaceTabs l₁ := by
  intro l₁
  induction l₁ with
  | nil => intro l₂ _; trivial
  | cons a l₁ ih =>
    intro l₂ h
    cases l₁ with
    | nil => trivial
    | cons b rest =>
      rw [List.cons_append, List.cons_append] at h
      exact ⟨h.1, ih l₂ h.2⟩

theorem noTwoSpaceTabs_dropWhile (p : Char → Bool) :
    ∀ l : List Char, noTwoSpaceTabs l → noTwoSpaceTabs (l.dropWhile p) := by
  intro l
  induction l with
  | nil => intro h; exact h
  | cons a l ih =>
    intro h
    rw [List.dropWhile_cons]
    split
    · exact ih (noTwoSpaceTabs_tail h)
    · exact h

theorem noTwoSpaceTabs_trimJs (l : List Char) (h : noTwoSpaceTabs l) :
    noTwoSpaceTabs (trimJs l) := by
  unfold trimJs
  obtain ⟨t, ht⟩ := List.rdropWhile_prefix isJsSpace (l.dropWhile isJsSpace)
  have hd := noTwoSpaceTabs_dropWhile isJsSpace l h
  rw [← ht] at hd
  exact noTwoSpaceTabs_append_left _ t hd

theorem mem_trimJs {a : Char} {l : List Char} (h : a ∈ trimJs l) : a ∈ l :=
  (List.dropWhile_suffix isJsSpace).subset
    ((List.rdropWhile_prefix isJsSpace _).subset h)

theorem head_dropWhile_false (p : Char → Bool) :
    ∀ (l : List Char) (c : Char), (l.dropWhile p).head? = some c → p c = false := by
  intro l
  induction l with
  | nil => intro c h; simp [List.dropWhile] at h
  | cons a l ih =>
    intro c h
    rw [List.dropWhile_cons] at h
    split at h
    · exact ih c h
    · rename_i hpa
      simp only [List.head?_cons, Option.some.injEq] at h
      rw [← h]
      simpa using hpa

theorem dropWhile_eq_self_head (p : Char → Bool) (l : List Char)
    (h : ∀ c, l.head? = some c → p c = false) : l.dropWhile p = l := by
  cases l with
  | nil => rfl
  | cons a l =>
    rw [List.dropWhile_cons, if_neg (by simp [h a rfl])]

theorem trimJs_idem (l : List Char) : trimJs (trimJs l) = trimJs l := by
  have hh : ∀ c, (List.rdropWhile isJsSpace (l.dropWhile isJsSpace)).head? = some c →
      isJsSpace c = false := by
    intro c hc
    obtain ⟨t, ht⟩ := List.rdropWhile_prefix isJsSpace (l.dropWhile isJsSpace)
    apply head_dropWhile_false isJsSpace l c
    rw [← ht]
    cases hr : List.rdropWhile isJsSpace (l.dropWhile isJsSpace) with
    | nil => rw [hr] at hc; simp at hc
    | cons x xs =>
      rw [hr] at hc
      simp only [List.head?_cons, Option.some.injEq] at hc
      rw [← hc]
      simp
  show trimJs (List.rdropWhile isJsSpace (l.dropWhile isJsSpace)) = _
  unfold trimJs
  rw [dropWhile_eq_self_head isJsSpace _ hh, List.rdropWhile_idempotent]

theorem mem_collapseNewlineRunsAux :
    ∀ (fuel : Nat) (l : List Char) (a : Char),
      a ∈ collapseNewlineRunsAux fuel l → a ∈ l ∨ a = ' ' := by
  intro fuel
  induction fuel with
  | zero => intro l a h; exact Or.inl h
  | succ fuel ih =>
    intro l a h
    cases l with
    | nil => simp [collapseNewlineRunsAux] at h
    | cons c rest =>
      simp only [collapseNewlineRunsAux] at h
      split at h
      · rw [List.mem_append] at h
        rcases h with h | h
        · split at h
          · exact Or.inr (List.mem_singleton.mp h)
          · rcases List.mem_cons.mp h with h | h
            · exact Or.inl (by rw [h]; exact List.mem_cons_self c rest)
            · exact Or.inl (List.mem_cons_of_mem c ((List.takeWhile_sublist _).subset h))
        · rcases ih _ a h with h | h
          · exact Or.inl (List.mem_cons_of_mem c ((List.dropWhile_sublist _).subset h))
          · exact Or.inr h
      · rcases List.mem_cons.mp h with h | h
        · exact Or.inl (by rw [h]; exact List.mem_cons_self c rest)
        · rcases ih _ a h with h | h
          · exact Or.inl (List.mem_cons_of_mem c h)
          · exact Or.inr h

theorem no_newline_collapseNewlineRunsAux :
    ∀ (fuel : Nat) (l : List Char), l.length ≤ fuel →
      '\n' ∉ collapseNewlineRunsAux fuel l := by
  intro fuel
  induction fuel with
  | zero =>
    intro l hl h
    rw [List.length_eq_zero.mp (Nat.le_zero.mp hl)] at h
    simp [collapseNewlineRunsAux] at h
  | succ fuel ih =>
    intro l hl h
    cases l with
    | nil => simp [collapseNewlineRunsAux] at h
    | cons c rest =>
      have hrest : rest.length ≤ fuel := by
        simp only [List.length_cons] at hl; omega
      simp only [collapseNewlineRunsAux] at h
      split at h
      · rw [List.mem_append] at h
        rcases h with h | h
        · split at h
          · exact absurd (List.mem_singleton.mp h) (by decide)
          · rename_i hnotin
            exact hnotin h
        · exact ih _ (Nat.le_trans (List.dropWhile_sublist _).length_le hrest) h
      · rename_i hnsp
        rcases List.mem_cons.mp h with h | h
        · rw [← h] at hnsp
          exact hnsp (by decide)
        · exact ih _ hrest h

theorem collapseNewlineRunsAux_fixed :
    ∀ (fuel : Nat) (l : List Char), l.length ≤ fuel → '\n' ∉ l →
      collapseNewlineRunsAux fuel l = l := by
  intro fuel
  induction fuel with
  | zero => intro l _ _; rfl
  | succ fuel ih =>
    intro l hl hnl
    cases l with
    | nil => rfl
    | cons c rest =>
      have hrest : rest.length ≤ fuel := by
        simp only [List.length_cons] at hl; omega
      simp only [collapseNewlineRunsAux]
      split
      · have hrun : '\n' ∉ c :: rest.takeWhile isJsSpace := by
          intro hmem
          rcases List.mem_cons.mp hmem with h | h
          · exact hnl (by rw [h]; exact List.mem_cons_self c rest)
          · exact hnl (List.mem_cons_of_mem c ((List.takeWhile_sublist _).subset h))
        rw [if_neg hrun,
          ih _ (Nat.le_trans (List.dropWhile_sublist _).length_le hrest)
            (fun hm => hnl (List.mem_cons_of_mem c ((List.dropWhile_sublist _).subset hm))),
          List.cons_append, List.takeWhile_append_dropWhile]
      · rw [ih rest hrest (fun hm => hnl (List.mem_cons_of_mem c hm))]

theorem collapseNewlineRuns_fixed (l : List Char) (hnl : '\n' ∉ l) :
    collapseNewlineRuns l = l :=
  collapseNewlineRunsAux_fixed l.length l (Nat.le_refl _) hnl

theorem mem_collapseSpaceTabsGo :
    ∀ (l : List Char) (b : Bool) (a : Char),
      a ∈ collapseSpaceTabsGo b l → a ∈ l ∨ a = ' ' := by
  intro l
  induction l with
  | nil => intro b a h; simp [collapseSpaceTabsGo] at h
  | cons c rest ih =>
    intro b a h
    simp only [collapseSpaceTabsGo] at h
    split at h
    · split at h
      · rcases ih true a h with h | h
        · exact Or.inl (List.mem_cons_of_mem c h)
        · exact Or.inr h
      · rcases List.mem_cons.mp h with h | h
        · exact Or.inr h
        · rcases ih true a h with h | h
          · exact Or.inl (List.mem_cons_of_mem c h)
          · exact Or.inr h
    · rcases List.mem_cons.mp h with h | h
      · exact Or.inl (by rw [h]; exact List.mem_cons_self c rest)
      · rcases ih false a h with h | h
        · exact Or.inl (List.mem_cons_of_mem c h)
        · exact Or.inr h

theorem no_tab_collapseSpaceTabsGo :
    ∀ (l : List Char) (b : Bool), '\t' ∉ collapseSpaceTabsGo b l := by
  intro l
  induction l with
  | nil => intro b h; simp [collapseSpaceTabsGo] at h
  | cons c rest ih =>
    intro b h
    simp only [collapseSpaceTabsGo] at h
    split at h
    · split at h
      · exact ih true h
      · rcases List.mem_cons.mp h with h | h
        · exact absurd h (by decide)
        · exact ih true h
    · rename_i hst
      rcases List.mem_cons.mp h with h | h
      · rw [← h] at hst
        exact hst (by decide)
      · exact ih false h

theorem head_collapseSpaceTabsGo_true :
    ∀ (l : List Char) (c : Char), (collapseSpaceTabsGo true l).head? = some c →
      isSpaceOrTab c = false := by
  intro l
  induction l with
  | nil => intro c h; simp [collapseSpaceTabsGo] at h
  | cons a rest ih =>
    intro c h
    simp only [collapseSpaceTabsGo] at h
    split at h
    · rw [if_pos trivial] at h
      exact ih c h
    · rename_i hst
      simp only [List.head?_cons, Option.some.injEq] at h
      rw [← h]
      simpa using hst

theorem noTwo_collapseSpaceTabsGo :
    ∀ (l : List Char) (b : Bool), noTwoSpaceTabs (collapseSpaceTabsGo b l) := by
  intro l
  induction l with
  | nil => intro b; trivial
  | cons c rest ih =>
    intro b
    simp only [collapseSpaceTabsGo]
    split
    · split
      · exact ih true
      · refine noTwoSpaceTabs_cons ?_ (ih true)
        intro c' hc' hand
        have := head_collapseSpaceTabsGo_true rest c' hc'
        rw [this] at hand
        exact Bool.false_ne_true hand.2
    · rename_i hst
      refine noTwoSpaceTabs_cons ?_ (ih false)
      intro c' _ hand
      exact hst hand.1

theorem collapseSpaceTabsGo_fixed :
    ∀ (l : List Char) (b : Bool), '\t' ∉ l → noTwoSpaceTabs l →
      (b = true → ∀ c, l.head? = some c → isSpaceOrTab c = false) →
      collapseSpaceTabsGo b l = l := by
  intro l
  induction l with
  | nil => intro b _ _ _; rfl
  | cons c rest ih =>
    intro b htab hnt hhead
    simp only [collapseSpaceTabsGo]
    split
    · rename_i hst
      cases b with
      | true =>
        rw [hhead rfl c rfl] at hst
        exact absurd hst Bool.false_ne_true
      | false =>
        rw [if_neg Bool.false_ne_true]
        have hc : c = ' ' := by
          have hor : c = ' ' ∨ c = '\t' := by
            simpa [isSpaceOrTab] using hst
          rcases hor with h | h
          · exact h
          · exact absurd (by rw [← h]; exact List.mem_cons_self c rest) htab
        rw [hc]
        congr 1
        refine ih true (fun hm => htab (List.mem_cons_of_mem c hm))
          (noTwoSpaceTabs_tail hnt) ?_
        intro _ c' hc'
        cases rest with
        | nil => simp at hc'
        | cons d rest' =>
          simp only [List.head?_cons, Option.some.injEq] at hc'
          rw [← hc']
          cases hd : isSpaceOrTab d with
          | false => rfl
          | true => exact absurd ⟨hst, hd⟩ hnt.1
    · rename_i hst
      congr 1
      refine ih false (fun hm => htab (List.mem_cons_of_mem c hm))
        (noTwoSpaceTabs_tail hnt) ?_
      intro hfalse
      exact absurd hfalse Bool.false_ne_true

theorem collapseSpaceTabs_fixed (l : List Char) (htab : '\t' ∉ l)
    (hnt : noTwoSpaceTabs l) : collapseSpaceTabs l = l :=
  collapseSpaceTabsGo_fixed l false htab hnt
    (fun h => absurd h Bool.false_ne_true)

theorem replaceCRLF_fixed : ∀ l : List Char, '\n' ∉ l → replaceCRLF l = l := by
  intro l
  induction l with
  | nil => intro _; rfl
  | cons c rest ih =>
    intro hnl
    cases rest with
    | nil => rfl
    | cons c2 rest' =>
      have hcond : ¬(c = '\r' ∧ c2 = '\n') := by
        rintro ⟨_, h2⟩
        exact hnl (by rw [← h2]; exact List.mem_cons_of_mem c (List.mem_cons_self c2 rest'))
      rw [replaceCRLF, if_neg hcond, ih (fun hm => hnl (List.mem_cons_of_mem c hm))]

theorem map_fixed {f : Char → Char} {l : List Char} (h : ∀ a ∈ l, f a = a) :
    l.map f = l := by
  rw [List.map_congr_left h]
  simp

/-- The smart-punctuation/space canonicalization maps leave no character of
any of their own target classes (nor any zero-width character, given a
zero-width-free input). -/
theorem mapped_char_classes (c : Char) (hzw : isZeroWidth c = false) :
    isZeroWidth (mapSmartDash (mapSmartSingle (mapSmartDouble (mapUnicodeSpace c)))) = false ∧
    isUnicodeSpaceVariant
      (mapSmartDash (mapSmartSingle (mapSmartDouble (mapUnicodeSpace c)))) = false ∧
    isSmartDouble (mapSmartDash (mapSmartSingle (mapSmartDouble (mapUnicodeSpace c)))) = false ∧
    isSmartSingle (mapSmartDash (mapSmartSingle (mapSmartDouble (mapUnicodeSpace c)))) = false ∧
    isSmartDash (mapSmartDash (mapSmartSingle (mapSmartDouble (mapUnicodeSpace c)))) = false := by
  unfold mapSmartDash mapSmartSingle mapSmartDouble mapUnicodeSpace
  split_ifs <;> refine ⟨?_, ?_, ?_, ?_, ?_⟩ <;> first | decide | simp_all

/-- Every character surviving the filter/map stage of `normalizeBookText` is
outside all five replaced character classes. -/
theorem mem_normStageMaps (t : List Char) (a : Char)
    (ha : a ∈ ((((((replaceCRLF t).filter (fun c => !isZeroWidth c)).map
      mapUnicodeSpace).map mapSmartDouble).map mapSmartSingle).map mapSmartDash)) :
    isZeroWidth a = false ∧ isUnicodeSpaceVariant a = false ∧ isSmartDouble a = false ∧
    isSmartSingle a = false ∧ isSmartDash a = false := by
  simp only [List.mem_map] at ha
  obtain ⟨b3, ⟨b2, ⟨b1, ⟨b0, hb0, rfl⟩, rfl⟩, rfl⟩, rfl⟩ := ha
  have hzw : isZeroWidth b0 = false := by
    have := List.of_mem_filter hb0
    simpa using this
  exact mapped_char_classes b0 hzw

theorem normalize_no_newline (t : List Char) : '\n' ∉ normalizeBookText t := by
  intro h
  unfold normalizeBookText at h
  rcases mem_collapseSpaceTabsGo _ false '\n' (mem_trimJs h) with h2 | h2
  · exact no_newline_collapseNewlineRunsAux _ _ (Nat.le_refl _) h2
  · exact absurd h2 (by decide)

theorem normalize_classes (t : List Char) :
    ∀ a ∈ normalizeBookText t,
      isZeroWidth a = false ∧ isUnicodeSpaceVariant a = false ∧ isSmartDouble a = false ∧
      isSmartSingle a = false ∧ isSmartDash a = false := by
  intro a ha
  unfold normalizeBookText at ha
  rcases mem_collapseSpaceTabsGo _ false a (mem_trimJs ha) with h2 | h2
  · rcases mem_collapseNewlineRunsAux _ _ a h2 with h3 | h3
    · exact mem_normStageMaps t a h3
    · rw [h3]
      exact ⟨by decide, by decide, by decide, by decide, by decide⟩
  · rw [h2]
    exact ⟨by decide, by decide, by decide, by decide, by decide⟩

theorem normalize_no_tab (t : List Char) : '\t' ∉ normalizeBookText t := by
  intro h
  unfold normalizeBookText at h
  exact no_tab_collapseSpaceTabsGo _ false (mem_trimJs h)

theorem normalize_noTwo (t : List Char) : noTwoSpaceTabs (normalizeBookText t) := by
  unfold normalizeBookText
  exact noTwoSpaceTabs_trimJs _ (noTwo_collapseSpaceTabsGo _ false)

theorem normalize_trim_fixed (t : List Char) :
    trimJs (normalizeBookText t) = normalizeBookText t := by
  unfold normalizeBookText
  exact trimJs_idem _

/-- **C6**: the text normalizer is idempotent — for all text `T`,
`normalizeBookText (normalizeBookText T) = normalizeBookText T`.  Normalized
text contains no CRLF pair (no newline at all), no zero-width character, no
Unicode space variant, no smart quote or dash, no newline run, no space/tab
run of length two or more, no tab, and is trimmed, so every stage of a second
pass is the identity. -/
theorem normalizeBookText_idempotent (t : List Char) :
    normalizeBookText (normalizeBookText t) = normalizeBookText t := by
  have hnl := normalize_no_newline t
  have hcls := normalize_classes t
  have htab := normalize_no_tab t
  have hnt := normalize_noTwo t
  have htrim := normalize_trim_fixed t
  set X := normalizeBookText t with hX
  have h1 : replaceCRLF X = X := replaceCRLF_fixed X hnl
  have h2 : X.filter (fun c => !isZeroWidth c) = X :=
    List.filter_eq_self.mpr (fun a ha => by rw [(hcls a ha).1]; rfl)
  have h3 : X.map mapUnicodeSpace = X :=
    map_fixed (fun a ha => by
      unfold mapUnicodeSpace
      rw [if_neg (by simp [(hcls a ha).2.1])])
  have h4 : X.map mapSmartDouble = X :=
    map_fixed (fun a ha => by
      unfold mapSmartDouble
      rw [if_neg (by simp [(hcls a ha).2.2.1])])
  have h5 : X.map mapSmartSingle = X :=
    map_fixed (fun a ha => by
      unfold mapSmartSingle
      rw [if_neg (by simp [(hcls a ha).2.2.2.1])])
  have h6 : X.map mapSmartDash = X :=
    map_fixed (fun a ha => by
      unfold mapSmartDash
      rw [if_neg (by simp [(hcls a ha).2.2.2.2])])
  have h7 : collapseNewlineRuns X = X := collapseNewlineRuns_fixed X hnl
  have h8 : collapseSpaceTabs X = X := collapseSpaceTabs_fixed X htab hnt
  unfold normalizeBookText
  rw [h1, h2, h3, h4, h5, h6, h7, h8]
  exact htrim

/-- **C2**: for every text `T` and every offset `O` in `[0, length T)`,
`findSafeBoundary(T, O)` returns either `0` or an index `I` such that
`T[I-1]` is whitespace and `T[I]` is non-whitespace (or `I = length T`, the
end case — in fact the source never returns `length T`). -/
theorem findSafeBoundary_safe (text : List Char) (startOffset : Nat)
    (h : startOffset < text.length) :
    findSafeBoundary text startOffset = 0 ∨
    (∃ cp cn, text[findSafeBoundary text startOffset - 1]? = some cp ∧
       isJsSpace cp = true ∧
       text[findSafeBoundary text startOffset]? = some cn ∧ isJsSpace cn = false) ∨
    findSafeBoundary text startOffset = text.length := by
  unfold findSafeBoundary
  split
  · exact Or.inl rfl
  · simp only
    split
    · rename_i hlt
      right; left
      have hadv := skipSpace_advances text (min startOffset (text.length - 1)) hlt
      obtain ⟨cp, hcp, hcps⟩ :=
        skipSpace_prev text (skipNonSpace text (min startOffset (text.length - 1))) hadv
      refine ⟨cp, text.get ⟨_, hlt⟩, hcp, hcps, ?_, ?_⟩
      · simp [List.getElem?_eq_getElem hlt]
      · exact skipSpace_stop text (skipNonSpace text (min startOffset (text.length - 1))) _
          (by simp [List.getElem?_eq_getElem hlt])
    · exact Or.inl rfl

/-- Witness for C2 at `T = "a b"`, `O = 0` (the boundary lands at index 2,
just after the space). -/
theorem findSafeBoundary_safe_witness :
    0 < (['a', ' ', 'b'] : List Char).length ∧
    (findSafeBoundary ['a', ' ', 'b'] 0 = 0 ∨
     (∃ cp cn,
        (['a', ' ', 'b'] : List Char)[findSafeBoundary ['a', ' ', 'b'] 0 - 1]? = some cp ∧
        isJsSpace cp = true ∧
        (['a', ' ', 'b'] : List Char)[findSafeBoundary ['a', ' ', 'b'] 0]? = some cn ∧
        isJsSpace cn = false) ∨
     findSafeBoundary ['a', ' ', 'b'] 0 = (['a', ' ', 'b'] : List Char).length) :=
  ⟨by decide, findSafeBoundary_safe ['a', ' ', 'b'] 0 (by decide)⟩

/-- **C1**: for every non-empty book text longer than the tail guard, every
`nextChunk(targetChars)` call with `targetChars ≥ 1`, from any stream state
(hence across arbitrarily many wraps), returns a chunk of length at least
`targetChars` — in particular never the empty string — and the chunk-building
loop always makes progress and terminates (it reaches its own exit condition
within the `targetChars + 1` fuel supplied by `nextChunk`). -/
theorem nextChunk_never_stalls (text : List Char) (rand : Nat → Nat)
    (targetChars cursor k : Nat) (hne : text ≠ [])
    (hguard : MIN_TAIL_GUARD_CHARS < text.length) (htc : 1 ≤ targetChars) :
    targetChars ≤ (nextChunk text rand targetChars cursor k).chunk.length ∧
    (nextChunk text rand targetChars cursor k).chunk ≠ [] ∧
    (nextChunk text rand targetChars cursor k).complete = true := by
  unfold nextChunk
  have hcomplete :=
    nextChunkLoop_complete text rand targetChars (targetChars + 1) [] cursor k
      (by simp only [List.length_nil, Nat.sub_zero]; omega)
  have hbroke := nextChunkLoop_broke text rand targetChars hne (targetChars + 1) [] cursor k
  have hlen :=
    nextChunkLoop_length text rand targetChars (targetChars + 1) [] cursor k hcomplete hbroke
  exact ⟨hlen, List.length_pos.mp (by omega), hcomplete⟩

/-- Witness for C1 on a 12001-character book with `targetChars = 1`. -/
theorem nextChunk_never_stalls_witness :
    (List.replicate 12001 'a' ≠ []) ∧
    MIN_TAIL_GUARD_CHARS < (List.replicate 12001 'a').length ∧
    (1 : Nat) ≤ 1 ∧
    (1 ≤ (nextChunk (List.replicate 12001 'a') (fun _ => 0) 1 0 0).chunk.length ∧
     (nextChunk (List.replicate 12001 'a') (fun _ => 0) 1 0 0).chunk ≠ [] ∧
     (nextChunk (List.replicate 12001 'a') (fun _ => 0) 1 0 0).complete = true) :=
  ⟨by have h := List.length_replicate 12001 'a'
      intro he; rw [he] at h; simp at h,
   by rw [List.length_replicate]; norm_num [MIN_TAIL_GUARD_CHARS],
   Nat.le_refl 1,
   nextChunk_never_stalls (List.replicate 12001 'a') (fun _ => 0) 1 0 0
     (by have h := List.length_replicate 12001 'a'
         intro he; rw [he] at h; simp at h)
     (by rw [List.length_replicate]; norm_num [MIN_TAIL_GUARD_CHARS])
     (Nat.le_refl 1)⟩

/-- **C3**: every `CorpusSessionStream` operation preserves the invariant
`0 ≤ cursor ≤ bookText.length` (the lower bound holds because the cursor is a
`Nat`, mirroring that the source only ever assigns non-negative values):
construction via `pickRandomStartOffset` establishes it, and `nextChunk`,
`ensureLength` and `createInitialBuffer` preserve it, for every book text,
random oracle, state and fuel. -/
theorem stream_cursor_invariant :
    (∀ (r : Nat) (text : List Char), pickRandomStartOffset r text ≤ text.length) ∧
    (∀ (text : List Char) (rand : Nat → Nat) (targetChars cursor k : Nat),
       cursor ≤ text.length →
       (nextChunk text rand targetChars cursor k).cursor ≤ text.length) ∧
    (∀ (text : List Char) (rand : Nat → Nat) (fuel : Nat) (current : List Char)
       (minLength cursor k : Nat), cursor ≤ text.length →
       (ensureLength text rand fuel current minLength cursor k).2.1 ≤ text.length) ∧
    (∀ (text : List Char) (rand : Nat → Nat) (fuel minLength cursor k : Nat),
       cursor ≤ text.length →
       (createInitialBuffer text rand fuel minLength cursor k).2.1 ≤ text.length) :=
  ⟨fun r text => pickRandomStartOffset_le r text,
   fun text rand targetChars cursor k h =>
     nextChunkLoop_cursor_le text rand targetChars _ _ _ _ h,
   fun text rand fuel current minLength cursor k h =>
     ensureLength_cursor_le text rand fuel current minLength cursor k h,
   fun text rand fuel minLength cursor k h =>
     ensureLength_cursor_le text rand fuel [] minLength cursor k h⟩

/-- Witness for C3 on the text `"a b"` with cursor `0`. -/
theorem stream_cursor_invariant_witness :
    (0 : Nat) ≤ (['a', ' ', 'b'] : List Char).length ∧
    pickRandomStartOffset 7 ['a', ' ', 'b'] ≤ (['a', ' ', 'b'] : List Char).length ∧
    (nextChunk ['a', ' ', 'b'] (fun _ => 0) 5 0 0).cursor ≤ (['a', ' ', 'b'] : List Char).length ∧
    (ensureLength ['a', ' ', 'b'] (fun _ => 0) 2 [] 5 0 0).2.1 ≤ (['a', ' ', 'b'] : List Char).length ∧
    (createInitialBuffer ['a', ' ', 'b'] (fun _ => 0) 2 5 0 0).2.1 ≤ (['a', ' ', 'b'] : List Char).length :=
  ⟨by decide,
   stream_cursor_invariant.1 7 ['a', ' ', 'b'],
   stream_cursor_invariant.2.1 ['a', ' ', 'b'] (fun _ => 0) 5 0 0 (by decide),
   stream_cursor_invariant.2.2.1 ['a', ' ', 'b'] (fun _ => 0) 2 [] 5 0 0 (by decide),
   stream_cursor_invariant.2.2.2 ['a', ' ', 'b'] (fun _ => 0) 2 5 0 0 (by decide)⟩

/-- **C4**: within `nextChunk`, while the cursor is inside the text a loop
iteration only advances it (the cursor is non-decreasing within a pass, no
random draw is consumed, and it stays within the text), and exactly when the
cursor has crossed `bookText.length` it is reset to `pickRandomStartOffset`,
which is `findSafeBoundary` applied to a rough random offset in
`[0, maxOffset]` where `maxOffset = max(0, length - MIN_TAIL_GUARD_CHARS)`;
conversely every rough offset in that interval arises from some random
draw. -/
theorem nextChunk_cursor_monotone_and_reset (text : List Char) (rand : Nat → Nat)
    (targetChars fuel : Nat) (chunk : List Char) (cursor k : Nat)
    (hg : chunk.length < targetChars) :
    (cursor < text.length →
      nextChunkLoop text rand targetChars (fuel + 1) chunk cursor k =
        nextChunkLoop text rand targetChars fuel
          (chunk ++ (text.drop cursor).take
            (min (targetChars - chunk.length) (text.length - cursor)))
          (cursor + min (targetChars - chunk.length) (text.length - cursor)) k ∧
      cursor ≤ cursor + min (targetChars - chunk.length) (text.length - cursor) ∧
      cursor + min (targetChars - chunk.length) (text.length - cursor) ≤ text.length) ∧
    (text.length ≤ cursor → text ≠ [] →
      nextChunkLoop text rand targetChars (fuel + 1) chunk cursor k =
        nextChunkLoop text rand targetChars fuel
          ((if !chunk.isEmpty && !endsWithJsSpace chunk then chunk ++ [' '] else chunk) ++
            (text.drop (pickRandomStartOffset (rand k) text)).take
              (min (targetChars -
                  (if !chunk.isEmpty && !endsWithJsSpace chunk then chunk ++ [' ']
                   else chunk).length)
                (text.length - pickRandomStartOffset (rand k) text)))
          (pickRandomStartOffset (rand k) text +
            min (targetChars -
                (if !chunk.isEmpty && !endsWithJsSpace chunk then chunk ++ [' ']
                 else chunk).length)
              (text.length - pickRandomStartOffset (rand k) text))
          (k + 1)) ∧
    (∀ r, ∃ rough, rough ≤ text.length - MIN_TAIL_GUARD_CHARS ∧
       pickRandomStartOffset r text = findSafeBoundary text rough) ∧
    (∀ rough, rough ≤ text.length - MIN_TAIL_GUARD_CHARS →
       ∃ r, pickRandomStartOffset r text = findSafeBoundary text rough) := by
  have hgle : ¬ targetChars ≤ chunk.length := by omega
  refine ⟨?_, ?_, ?_, ?_⟩
  · intro hcur
    refine ⟨?_, by omega, by omega⟩
    simp only [nextChunkLoop, if_neg hgle, if_neg (by omega : ¬ text.length ≤ cursor)]
    rw [if_neg (by omega)]
  · intro hcur hne
    have hlt := pickRandomStartOffset_lt (rand k) text hne
    simp only [nextChunkLoop, if_neg hgle, if_pos hcur]
    rw [if_neg (by omega)]
  · intro r
    by_cases h0 : text.length = 0
    · refine ⟨0, by omega, ?_⟩
      simp only [pickRandomStartOffset, findSafeBoundary, if_pos h0]
    · refine ⟨randomInt r (text.length - MIN_TAIL_GUARD_CHARS + 1), ?_, ?_⟩
      · simp only [randomInt]
        rw [if_neg (by omega)]
        have := Nat.mod_lt r
          (y := text.length - MIN_TAIL_GUARD_CHARS + 1) (by omega)
        omega
      · simp only [pickRandomStartOffset, if_neg h0]
  · intro rough hrough
    by_cases h0 : text.length = 0
    · refine ⟨0, ?_⟩
      simp only [pickRandomStartOffset, findSafeBoundary, if_pos h0]
    · refine ⟨rough, ?_⟩
      simp only [pickRandomStartOffset, randomInt, if_neg h0]
      rw [if_neg (by omega), Nat.mod_eq_of_lt (by omega)]

/-- Witness for C4 on the text `"a b"` from cursor `0` with an empty chunk. -/
theorem nextChunk_cursor_monotone_and_reset_witness :
    ((([] : List Char)).length < 2) ∧
    (0 < (['a', ' ', 'b'] : List Char).length →
      nextChunkLoop ['a', ' ', 'b'] (fun _ => 1) 2 (3 + 1) [] 0 0 =
        nextChunkLoop ['a', ' ', 'b'] (fun _ => 1) 2 3
          (([] : List Char) ++ ((['a', ' ', 'b'] : List Char).drop 0).take
            (min (2 - ([] : List Char).length) ((['a', ' ', 'b'] : List Char).length - 0)))
          (0 + min (2 - ([] : List Char).length) ((['a', ' ', 'b'] : List Char).length - 0)) 0 ∧
      0 ≤ 0 + min (2 - ([] : List Char).length) ((['a', ' ', 'b'] : List Char).length - 0) ∧
      0 + min (2 - ([] : List Char).length) ((['a', ' ', 'b'] : List Char).length - 0) ≤
        (['a', ' ', 'b'] : List Char).length) ∧
    (∃ rough, rough ≤ (['a', ' ', 'b'] : List Char).length - MIN_TAIL_GUARD_CHARS ∧
       pickRandomStartOffset 1 ['a', ' ', 'b'] = findSafeBoundary ['a', ' ', 'b'] rough) :=
  ⟨by decide,
   (nextChunk_cursor_monotone_and_reset ['a', ' ', 'b'] (fun _ => 1) 2 3 [] 0 0 (by decide)).1,
   (nextChunk_cursor_monotone_and_reset ['a', ' ', 'b'] (fun _ => 1) 2 3 [] 0 0 (by decide)).2.2.1 1⟩

/-- **C10 counterexample**: on the empty text (with start offset `0`)
`findSafeBoundary` returns `0`, which is not strictly less than the text's
length `0` — so "for every text ... strictly less than `text.length`" fails
at the empty text. -/
theorem findSafeBoundary_empty_not_lt :
    findSafeBoundary ([] : List Char) 0 = 0 ∧
    ¬ findSafeBoundary ([] : List Char) 0 < ([] : List Char).length := by
  decide

/-- **C10 (amended)**: for every NON-empty text and every start offset,
`findSafeBoundary` returns an offset strictly less than `text.length` (when
the forward snap walks off the end it returns `0`, never `length`);
consequently the cursor immediately after a wrap (`pickRandomStartOffset`)
leaves at least one character remaining, and the defensive break on
`remaining <= 0` in `nextChunk` is never taken. -/
theorem findSafeBoundary_lt_and_no_break (text : List Char) (rand : Nat → Nat)
    (hne : text ≠ []) :
    (∀ startOffset, findSafeBoundary text startOffset < text.length) ∧
    (∀ r, pickRandomStartOffset r text < text.length) ∧
    (∀ targetChars cursor k, (nextChunk text rand targetChars cursor k).broke = false) :=
  ⟨fun startOffset => findSafeBoundary_lt text startOffset hne,
   fun r => pickRandomStartOffset_lt r text hne,
   fun targetChars cursor k =>
     nextChunkLoop_broke text rand targetChars hne (targetChars + 1) [] cursor k⟩

/-- Witness for the amended C10 on the one-character text `"a"`. -/
theorem findSafeBoundary_lt_and_no_break_witness :
    ((['a'] : List Char) ≠ []) ∧
    findSafeBoundary ['a'] 5 < (['a'] : List Char).length ∧
    (nextChunk ['a'] (fun _ => 0) 2 0 0).broke = false :=
  ⟨by decide,
   (findSafeBoundary_lt_and_no_break ['a'] (fun _ => 0) (by decide)).1 5,
   (findSafeBoundary_lt_and_no_break ['a'] (fun _ => 0) (by decide)).2.2 2 0 0⟩

/-- On a list sorted by descending timestamp (the reversed event log), the
backward scan accumulates exactly the prefix of events still inside the
window, which is exactly the set of events with `windowStart ≤ t`. -/
theorem windowScan_eq (ws : Int) (l : List TypingEvent)
    (hdesc : l.Pairwise (fun a b => b.t ≤ a.t)) :
    windowScan ws l =
      (((l.filter (fun e => ws ≤ e.t)).map (fun e => e.chars)).sum,
       ((l.filter (fun e => ws ≤ e.t)).map (fun e => e.correctChars)).sum,
       !(l.filter (fun e => ws ≤ e.t)).isEmpty) := by
  induction l with
  | nil => rfl
  | cons e rest ih =>
    rw [List.pairwise_cons] at hdesc
    obtain ⟨hhead, htail⟩ := hdesc
    by_cases he : e.t < ws
    · have hfilter : rest.filter (fun e => ws ≤ e.t) = [] := by
        rw [List.filter_eq_nil_iff]
        intro a ha
        have := hhead a ha
        simp only [decide_eq_true_eq]
        omega
      rw [List.filter_cons_of_neg (by simp only [decide_eq_true_eq]; omega)]
      rw [hfilter]
      simp [windowScan, he]
    · rw [List.filter_cons_of_pos (by simp only [decide_eq_true_eq]; omega)]
      simp only [windowScan, if_neg he, ih htail, List.map_cons, List.sum_cons,
        List.isEmpty_cons]
      refine Prod.ext ?_ (Prod.ext ?_ ?_) <;> simp <;> omega

/-- **C7 counterexample**: the code never checks the upper end of the window.
For the time-ascending list with the single event at `t = 1` and `now = 0`,
the claim's window `[now - windowMs, now] = [-10000, 0]` contains no event,
so the claimed sums are `0` and the claimed `rollingWpm` is
`round(0/5/(10000/60000)) = 0`, but `calculateRollingWpmFromEvents` includes
the event (its scan only tests `t < now - windowMs`) and returns `6`. -/
theorem calculateRollingWpm_future_event :
    ([⟨1, 5, 5⟩] : List TypingEvent).Pairwise (fun a b => a.t ≤ b.t) ∧
    specWindowEvents [⟨1, 5, 5⟩] 0 10000 = [] ∧
    (calculateRollingWpmFromEvents [⟨1, 5, 5⟩] 0 10000).rollingWpm = 6 ∧
    jsRound ((0 : ℚ) / 5 / ((10000 : ℚ) / 60000)) = 0 := by
  refine ⟨by simp, by decide, ?_, by norm_num [jsRound]⟩
  norm_num [calculateRollingWpmFromEvents, windowScan, jsRound]

/-- **C7 (amended)**: for every time-ascending event list whose timestamps
do not exceed `now`, `calculateRollingWpmFromEvents(events, now, windowMs)`
sums `chars` and `correctChars` over exactly the events with timestamp in
`[now - windowMs, now]` and returns
`rollingWpm = round(sumCorrectChars/5/(windowMs/60000))` and
`rawWpm = round(sumChars/5/(windowMs/60000))` (the code only tests the lower
window end, so events later than `now` would also be counted — hence the
added hypothesis); in particular 50 correct and 55 total characters in a
10000 ms window yield `rollingWpm = 60` and `rawWpm = 66`. -/
theorem calculateRollingWpm_window (events : List TypingEvent) (now windowMs : Int)
    (hasc : events.Pairwise (fun a b => a.t ≤ b.t))
    (hpast : ∀ e ∈ events, e.t ≤ now) :
    calculateRollingWpmFromEvents events now windowMs =
      (if (specWindowEvents events now windowMs).isEmpty then ⟨0, 0, false⟩
       else
         ⟨jsRound (((((specWindowEvents events now windowMs).map
              (fun e => e.correctChars)).sum : ℕ) : ℚ) / 5 / ((windowMs : ℚ) / 60000)),
          jsRound (((((specWindowEvents events now windowMs).map
              (fun e => e.chars)).sum : ℕ) : ℚ) / 5 / ((windowMs : ℚ) / 60000)), true⟩) ∧
    calculateRollingWpmFromEvents [⟨0, 55, 50⟩] 0 10000 = ⟨60, 66, true⟩ := by
  constructor
  · have hspec : specWindowEvents events now windowMs =
        events.filter (fun e => now - windowMs ≤ e.t) := by
      unfold specWindowEvents
      refine List.filter_congr ?_
      intro e he
      have h1 := hpast e he
      simp [h1]
    have hrevEmpty : ∀ l : List TypingEvent, l.reverse.isEmpty = l.isEmpty := by
      intro l; cases l <;> simp
    have hscan := windowScan_eq (now - windowMs) events.reverse
      (List.pairwise_reverse.mpr hasc)
    rw [List.filter_reverse, List.map_reverse, List.map_reverse,
      List.sum_reverse, List.sum_reverse, hrevEmpty] at hscan
    unfold calculateRollingWpmFromEvents
    split
    · rename_i hnil
      rw [hspec]
      have : events = [] := by simpa [List.isEmpty_iff] using hnil
      subst this
      simp
    · rename_i hnnil
      rw [hspec]
      simp only [hscan]
      split
      · rename_i hemp
        have hX : (events.filter (fun e => now - windowMs ≤ e.t)).isEmpty = true := by
          simpa using hemp
        rw [if_pos hX]
      · rename_i hemp
        have hX : (events.filter (fun e => now - windowMs ≤ e.t)).isEmpty = false := by
          simpa using hemp
        rw [if_neg (by simp only [hX]; exact Bool.false_ne_true)]
  · norm_num [calculateRollingWpmFromEvents, windowScan, jsRound]

/-- Witness for the amended C7 on a past, sorted two-event list. -/
theorem calculateRollingWpm_window_witness :
    ([⟨-3, 2, 1⟩, ⟨-1, 3, 3⟩] : List TypingEvent).Pairwise (fun a b => a.t ≤ b.t) ∧
    (∀ e ∈ ([⟨-3, 2, 1⟩, ⟨-1, 3, 3⟩] : List TypingEvent), e.t ≤ 0) ∧
    calculateRollingWpmFromEvents [⟨-3, 2, 1⟩, ⟨-1, 3, 3⟩] 0 10000 =
      (if (specWindowEvents [⟨-3, 2, 1⟩, ⟨-1, 3, 3⟩] 0 10000).isEmpty then ⟨0, 0, false⟩
       else
         ⟨jsRound (((((specWindowEvents [⟨-3, 2, 1⟩, ⟨-1, 3, 3⟩] 0 10000).map
              (fun e => e.correctChars)).sum : ℕ) : ℚ) / 5 / ((10000 : ℚ) / 60000)),
          jsRound (((((specWindowEvents [⟨-3, 2, 1⟩, ⟨-1, 3, 3⟩] 0 10000).map
              (fun e => e.chars)).sum : ℕ) : ℚ) / 5 / ((10000 : ℚ) / 60000)), true⟩) :=
  ⟨by decide, by decide,
   (calculateRollingWpm_window [⟨-3, 2, 1⟩, ⟨-1, 3, 3⟩] 0 10000
     (by decide) (by decide)).1⟩

/-- **C8 counterexample**: a state satisfying everything the claim lists as
"warmed-up" (`firstTypedAt = 1` set, `totalTypedChars = 10` nonzero, warm-up
reached via the character minimum) with no events in the window and
`now - lastTypedAt = 1000 < idleResetMs = 15000`, for which the claim
predicts the previous display `some 42` — but `lastTypedAt = 0` is falsy, so
the source skips the hold branch and resets the display to `null`. -/
theorem getRollingWpmDisplay_zero_lastTyped :
    getRollingWpmDisplay [] 1000 1 10 0 (some 42) 10000 3000 10 15000 = ⟨none, 0⟩ ∧
    (1000 : Int) - 0 < 15000 ∧
    (1 : Int) ≠ 0 ∧ (10 : Nat) ≠ 0 ∧ (10 : Nat) ≤ 10 ∧
    (calculateRollingWpmFromEvents [] 1000 10000).hasEventsInWindow = false ∧
    some 42 ≠ (none : Option Int) := by
  decide

/-- **C8 (amended)**: for every warmed-up state (`firstTypedAt` set,
`totalTypedChars` nonzero, warm-up reached) in which no event falls in the
rolling window AND `lastTypedAt` is set (nonzero — the source tests its
truthiness before the hold branch), `getRollingWpmDisplay` returns the
previous displayed value while `now - lastTypedAt < idleResetMs`, and resets
the display to `null` once `now - lastTypedAt` reaches `idleResetMs`. -/
theorem getRollingWpmDisplay_idle_hold_reset (events : List TypingEvent)
    (now firstTypedAt : Int) (totalTypedChars : Nat) (lastTypedAt : Int)
    (previousDisplay : Option Int) (windowMs warmupMs : Int)
    (warmupMinChars : Nat) (idleResetMs : Int)
    (hf : firstTypedAt ≠ 0) (htc : totalTypedChars ≠ 0)
    (hwarm : warmupMs ≤ now - firstTypedAt ∨ warmupMinChars ≤ totalTypedChars)
    (hwin : (calculateRollingWpmFromEvents events now windowMs).hasEventsInWindow = false)
    (hl : lastTypedAt ≠ 0) :
    getRollingWpmDisplay events now firstTypedAt totalTypedChars lastTypedAt
        previousDisplay windowMs warmupMs warmupMinChars idleResetMs =
      if now - lastTypedAt < idleResetMs then ⟨previousDisplay, 0⟩
      else ⟨none, 0⟩ := by
  unfold getRollingWpmDisplay
  rw [if_neg (by tauto : ¬ (firstTypedAt = 0 ∨ totalTypedChars = 0))]
  simp only
  rw [if_neg (not_not.mpr hwarm)]
  rw [if_neg (by simp [hwin])]
  by_cases hidle : now - lastTypedAt < idleResetMs
  · rw [if_pos ⟨hl, hidle⟩, if_pos hidle]
  · rw [if_neg (fun hand => hidle hand.2), if_neg hidle]

/-- **C5 counterexample**: with a fetch that always serves the 3-character
body `"abc"` (normalized length 3 < 500), the first `loadBookText` call for
path `"b"` rejects with the too-short error, and a second call for the same
path returns the very same memoized failure without issuing another fetch
(the fetch count stays at 1) — the failure IS permanently cached, because
the source stores the promise in `textCache` before it settles and never
removes it on rejection. -/
theorem loadBookText_short_failure_cached :
    ((loadBookText (fun _ _ => ['a', 'b', 'c']) "b" ⟨fun _ => none, fun _ => 0⟩).1 =
      Except.error "Corpus book is too short") ∧
    ((loadBookText (fun _ _ => ['a', 'b', 'c']) "b"
        (loadBookText (fun _ _ => ['a', 'b', 'c']) "b" ⟨fun _ => none, fun _ => 0⟩).2).1 =
      Except.error "Corpus book is too short") ∧
    ((loadBookText (fun _ _ => ['a', 'b', 'c']) "b"
        (loadBookText (fun _ _ => ['a', 'b', 'c']) "b" ⟨fun _ => none, fun _ => 0⟩).2).2.fetchCount
      "b" = 1) :=
  ⟨rfl, rfl, rfl⟩

/-- **C5 (amended)**: when `loadBookText(entry)` fails because the normalized
text is shorter than 500 characters, that failure IS permanently cached: the
failing call stores the rejection in the cache and bumps the fetch count, and
every later call for the same path returns the memoized failure with the
state unchanged (no retry of the underlying fetch). -/
theorem loadBookText_short_failure_is_cached (fetchRaw : String → Nat → List Char)
    (path : String) (s : BookCacheState)
    (hmiss : s.cache path = none)
    (hshort : (normalizeBookText (fetchRaw path (s.fetchCount path))).length < 500) :
    (loadBookText fetchRaw path s).1 = Except.error "Corpus book is too short" ∧
    (loadBookText fetchRaw path s).2.cache path =
      some (Except.error "Corpus book is too short") ∧
    (loadBookText fetchRaw path s).2.fetchCount path = s.fetchCount path + 1 ∧
    (∀ (s' : BookCacheState) (r : Except String (List Char)),
       s'.cache path = some r → loadBookText fetchRaw path s' = (r, s')) := by
  refine ⟨?_, ?_, ?_, ?_⟩
  · simp only [loadBookText, hmiss, processBook, if_pos hshort]
  · simp only [loadBookText, hmiss, processBook, if_pos hshort]
    simp
  · simp only [loadBookText, hmiss]
    simp
  · intro s' r h
    simp only [loadBookText, h]

/-- Witness for the amended C5: the too-short body `"abc"` at path `"b"`. -/
theorem loadBookText_short_failure_is_cached_witness :
    ((⟨fun _ => none, fun _ => 0⟩ : BookCacheState).cache "b" = none) ∧
    (normalizeBookText ((fun (_ : String) (_ : Nat) => ['a', 'b', 'c']) "b"
       ((⟨fun _ => none, fun _ => 0⟩ : BookCacheState).fetchCount "b"))).length < 500 ∧
    (loadBookText (fun _ _ => ['a', 'b', 'c']) "b"
        ⟨fun _ => none, fun _ => 0⟩).2.fetchCount "b" =
      (⟨fun _ => none, fun _ => 0⟩ : BookCacheState).fetchCount "b" + 1 :=
  ⟨rfl, by decide,
   (loadBookText_short_failure_is_cached (fun _ _ => ['a', 'b', 'c']) "b"
     ⟨fun _ => none, fun _ => 0⟩ rfl (by decide)).2.2.1⟩

/-- **C9**: two overlapping `loadBookText` calls for the same path — the
event loop serializes their synchronous check-then-insert steps, so they are
modelled as two sequential applications starting from a cache miss — trigger
exactly one underlying fetch (the fetch count rises by one across both calls
and for no other path), and both callers receive the identical result (the
second call returns the cached promise and leaves the state untouched). -/
theorem loadBookText_single_flight (fetchRaw : String → Nat → List Char)
    (path : String) (s : BookCacheState) (hmiss : s.cache path = none) :
    (loadBookText fetchRaw path (loadBookText fetchRaw path s).2).1 =
      (loadBookText fetchRaw path s).1 ∧
    (loadBookText fetchRaw path (loadBookText fetchRaw path s).2).2 =
      (loadBookText fetchRaw path s).2 ∧
    (loadBookText fetchRaw path s).2.fetchCount path = s.fetchCount path + 1 ∧
    (∀ p, p ≠ path → (loadBookText fetchRaw path s).2.fetchCount p = s.fetchCount p) := by
  refine ⟨?_, ?_, ?_, ?_⟩
  · simp only [loadBookText, hmiss]
    simp
  · simp only [loadBookText, hmiss]
    simp
  · simp only [loadBookText, hmiss]
    simp
  · intro p hp
    simp only [loadBookText, hmiss]
    simp [hp]

/-- Witness for C9: one fetch shared by two calls for path `"b"`. -/
theorem loadBookText_single_flight_witness :
    ((⟨fun _ => none, fun _ => 0⟩ : BookCacheState).cache "b" = none) ∧
    ((loadBookText (fun _ _ => ['a']) "b"
        (loadBookText (fun _ _ => ['a']) "b" ⟨fun _ => none, fun _ => 0⟩).2).1 =
      (loadBookText (fun _ _ => ['a']) "b" ⟨fun _ => none, fun _ => 0⟩).1) ∧
    (loadBookText (fun _ _ => ['a']) "b" ⟨fun _ => none, fun _ => 0⟩).2.fetchCount "b" =
      (⟨fun _ => none, fun _ => 0⟩ : BookCacheState).fetchCount "b" + 1 :=
  ⟨rfl,
   (loadBookText_single_flight (fun _ _ => ['a']) "b" ⟨fun _ => none, fun _ => 0⟩ rfl).1,
   (loadBookText_single_flight (fun _ _ => ['a']) "b" ⟨fun _ => none, fun _ => 0⟩ rfl).2.2.1⟩

/-- Witness for the amended C8: held value while idle for 995 ms. -/
theorem getRollingWpmDisplay_idle_hold_reset_witness :
    (1 : Int) ≠ 0 ∧ (10 : Nat) ≠ 0 ∧
    ((3000 : Int) ≤ 1000 - 1 ∨ (10 : Nat) ≤ 10) ∧
    (calculateRollingWpmFromEvents [] 1000 10000).hasEventsInWindow = false ∧
    (5 : Int) ≠ 0 ∧
    getRollingWpmDisplay [] 1000 1 10 5 (some 42) 10000 3000 10 15000 =
      (if (1000 : Int) - 5 < 15000 then ⟨some 42, 0⟩ else ⟨none, 0⟩) :=
  ⟨by decide, by decide, Or.inr (by decide), by decide, by decide,
   getRollingWpmDisplay_idle_hold_reset [] 1000 1 10 5 (some 42) 10000 3000 10 15000
     (by decide) (by decide) (Or.inr (by decide)) (by decide) (by decide)⟩

end AmbiType
